import Mathlib

/-!
Verification of the REVM <-> StateDB bridge: the block-level state journal
(pending basic/storage overlays over an authoritative ledger), the code cache,
the FFI status-code boundary, the handle registry, and the snapshot
clone/commit pair.

The embedding mirrors the Go sources:
  * statedb.go / the journal part: `stateDBImpl` with `pendingBasic`,
    `pendingStorage`, `codeCache`, `flushPending`, `Basic`, `Storage`,
    `CodeByHash`.
  * cgo_exports.go: `re_state_basic`, `re_state_code`, `re_state_set_basic`,
    `re_state_set_storage`, `re_state_store_code` with their status codes.
  * the handle registry: `NewStateDB`, `ReleaseStateDB`, `lookup`.
  * the snapshot layer: `RevmExecutorStateDB.Clone` / `.Commit`.

Modelling conventions:
  * 20-byte addresses, 32-byte hashes, 256-bit words and balances, and 64-bit
    nonces are modeled by their numeric value as `Nat`; the only operations the
    code performs on them are equality and zero tests, so no overflow arithmetic
    arises anywhere in the embedded fragment.
  * Go maps are modeled as association lists with first-match lookup; map
    insertion (`m[k] = v`) replaces the entry for `k`.  A Go `nil` map reads
    exactly like an empty map and `len(nil) = 0`, so the embedding does not
    distinguish `nil` maps from empty ones (the distinction is unobservable in
    every embedded operation).
  * Byte slices are `List Nat`; a Go `nil` slice is `[]` / `none` where the
    code distinguishes "no result".
-/

namespace RevmBridge

/-- A byte string (Go `[]byte`), each element one byte value. -/
abbrev Bytes := List Nat

/-- `FFIAccountInfo` from statedb.go: balance (`FFIU256`, modeled by its
numeric value), nonce (`uint64`), code hash (`FFIHash`, modeled by its numeric
value; `0` is the all-zero hash, the "no code" marker used by the bridge). -/
structure FFIAccountInfo where
  balance : Nat
  nonce : Nat
  codeHash : Nat
deriving DecidableEq, Repr

/-- First-match association-list lookup: the read of a Go map. -/
def alookup {α β : Type} [DecidableEq α] : List (α × β) → α → Option β
  | [], _ => none
  | p :: rest, a => if p.1 = a then some p.2 else alookup rest a

/-- Drop every binding of key `k` (helper shared by insertion and deletion). -/
def aremove {α β : Type} [DecidableEq α] : List (α × β) → α → List (α × β)
  | [], _ => []
  | p :: rest, k => if p.1 = k then aremove rest k else p :: aremove rest k

/-- Go map insertion `m[k] = v`: replace the binding of `k`, keep the rest
(iteration order of a Go map is unspecified, so the position of the fresh
binding carries no meaning). -/
def aupsert {α β : Type} [DecidableEq α] (l : List (α × β)) (k : α) (v : β) :
    List (α × β) :=
  (k, v) :: aremove l k

/-- Go map deletion `delete(m, k)`. -/
def aerase {α β : Type} [DecidableEq α] (l : List (α × β)) (k : α) :
    List (α × β) :=
  aremove l k

theorem alookup_aupsert_self {α β : Type} [DecidableEq α]
    (l : List (α × β)) (k : α) (v : β) :
    alookup (aupsert l k v) k = some v := by
  simp [aupsert, alookup]

theorem alookup_aremove_ne {α β : Type} [DecidableEq α]
    (l : List (α × β)) (k a : α) (h : ¬ a = k) :
    alookup (aremove l k) a = alookup l a := by
  induction l with
  | nil => rfl
  | cons p rest ih =>
    by_cases hp : p.1 = k
    · have hpa : ¬ p.1 = a := fun hh => h (hh ▸ hp)
      have hka : ¬ k = a := fun hh => h hh.symm
      simp [aremove, hp, alookup, hpa, hka, ih]
    · simp only [aremove, hp, if_false, alookup]
      by_cases ha : p.1 = a
      · simp [ha]
      · simp [ha, ih]

theorem alookup_aupsert_ne {α β : Type} [DecidableEq α]
    (l : List (α × β)) (k a : α) (v : β) (h : ¬ a = k) :
    alookup (aupsert l k v) a = alookup l a := by
  have hk : ¬ k = a := fun hh => h hh.symm
  simp [aupsert, alookup, hk, alookup_aremove_ne l k a h]

theorem alookup_aremove_self {α β : Type} [DecidableEq α]
    (l : List (α × β)) (k : α) :
    alookup (aremove l k) k = none := by
  induction l with
  | nil => rfl
  | cons p rest ih =>
    by_cases hp : p.1 = k
    · simp [aremove, hp, ih]
    · simp [aremove, hp, alookup, ih]

theorem alookup_aerase_self {α β : Type} [DecidableEq α]
    (l : List (α × β)) (k : α) :
    alookup (aerase l k) k = none :=
  alookup_aremove_self l k

theorem alookup_aerase_ne {α β : Type} [DecidableEq α]
    (l : List (α × β)) (k a : α) (h : ¬ a = k) :
    alookup (aerase l k) a = alookup l a :=
  alookup_aremove_ne l k a h

theorem mem_aremove_key_ne {α β : Type} [DecidableEq α]
    (l : List (α × β)) (k : α) :
    ∀ q ∈ aremove l k, ¬ q.1 = k := by
  induction l with
  | nil => intro q hq; cases hq
  | cons p rest ih =>
    intro q hq
    by_cases hp : p.1 = k
    · exact ih q (by simpa [aremove, hp] using hq)
    · rcases (by simpa [aremove, hp] using hq : q = p ∨ q ∈ aremove rest k) with h1 | h1
      · exact h1 ▸ hp
      · exact ih q h1

theorem alookup_eq_none_iff {α β : Type} [DecidableEq α]
    (l : List (α × β)) (a : α) :
    alookup l a = none ↔ ∀ p ∈ l, ¬ p.1 = a := by
  induction l with
  | nil => simp [alookup]
  | cons p rest ih =>
    by_cases hp : p.1 = a
    · simp [alookup, hp]
    · simp [alookup, hp, ih]

/-- The Ledger Adapter: the authoritative go-ethereum `state.StateDB` viewed
through the point reads and writes the bridge actually performs (`GetBalance`,
`GetNonce`, `GetCodeHash`, `GetCode`/`GetCodeSize`, `GetState`, `SetBalance`,
`SetNonce`, `SetCode`, `SetState`).  Absent entries read as the zero value /
empty bytes, exactly as in `StateDB`.  `SetCode` in the authoritative StateDB
also recomputes the keccak code hash; the hash function is external to this
subsystem and no embedded operation reads an address's code hash after a
`SetCode` on it, so the model leaves the `codeHashA` column untouched there. -/
structure Ledger where
  balance : List (Nat × Nat)
  nonce : List (Nat × Nat)
  codeHashA : List (Nat × Nat)
  code : List (Nat × Bytes)
  storage : List ((Nat × Nat) × Nat)
deriving DecidableEq, Repr

def Ledger.getBalance (l : Ledger) (a : Nat) : Nat := (alookup l.balance a).getD 0

def Ledger.getNonce (l : Ledger) (a : Nat) : Nat := (alookup l.nonce a).getD 0

def Ledger.getCodeHash (l : Ledger) (a : Nat) : Nat := (alookup l.codeHashA a).getD 0

def Ledger.getCode (l : Ledger) (a : Nat) : Bytes := (alookup l.code a).getD []

def Ledger.getCodeSize (l : Ledger) (a : Nat) : Nat := (l.getCode a).length

def Ledger.getState (l : Ledger) (a slot : Nat) : Nat :=
  (alookup l.storage (a, slot)).getD 0

def Ledger.setBalance (l : Ledger) (a v : Nat) : Ledger :=
  { l with balance := aupsert l.balance a v }

def Ledger.setNonce (l : Ledger) (a v : Nat) : Ledger :=
  { l with nonce := aupsert l.nonce a v }

def Ledger.setCode (l : Ledger) (a : Nat) (b : Bytes) : Ledger :=
  { l with code := aupsert l.code a b }

def Ledger.setState (l : Ledger) (a slot v : Nat) : Ledger :=
  { l with storage := aupsert l.storage (a, slot) v }

/-- `types.EmptyCodeHash`: keccak256 of the empty byte string. -/
def emptyCodeHash : Nat :=
  0xc5d2460186f7233c927e7db2dcc703c0e500b653ca82273b7bfad8045d85a470

/-- The block journal `stateDBImpl` (statedb.go): the wrapped authoritative
StateDB, the process-wide code cache (`sync.Map`, hash -> bytes), and the two
block-level pending overlays.  The optional `blockHashResolver` and the mutex
are irrelevant to the embedded operations and omitted. -/
structure StateDBImpl where
  db : Ledger
  codeCache : List (Nat × Bytes)
  pendingBasic : List (Nat × FFIAccountInfo)
  pendingStorage : List (Nat × List (Nat × Nat))
deriving DecidableEq, Repr

/-- `Basic` (statedb.go): return the pending-overlay entry for `addr` if one
exists; otherwise read balance, nonce and code hash through to the StateDB,
opportunistically warming the code cache when the account has a non-zero code
hash whose bytes are not cached yet (Go condition
`len(codeHash) != 0 && codeHash != (common.Hash{})`; the first conjunct is
vacuous since a hash is always 32 bytes). -/
def StateDBImpl.Basic (s : StateDBImpl) (addr : Nat) :
    FFIAccountInfo × StateDBImpl :=
  match alookup s.pendingBasic addr with
  | some info => (info, s)
  | none =>
    let balance := s.db.getBalance addr
    let nonce := s.db.getNonce addr
    let codeHash := s.db.getCodeHash addr
    let cache :=
      if codeHash ≠ 0 then
        match alookup s.codeCache codeHash with
        | some _ => s.codeCache
        | none =>
          let code := s.db.getCode addr
          if 0 < code.length then aupsert s.codeCache codeHash code
          else s.codeCache
      else s.codeCache
    (⟨balance, nonce, codeHash⟩, { s with codeCache := cache })

/-- `Storage` (statedb.go): pending-overlay hit wins (outer map by address,
inner map by slot); on a miss of either level, fall through to the StateDB. -/
def StateDBImpl.Storage (s : StateDBImpl) (addr slot : Nat) : Nat :=
  match alookup s.pendingStorage addr with
  | some accSlots =>
    match alookup accSlots slot with
    | some val => val
    | none => s.db.getState addr slot
  | none => s.db.getState addr slot

/-- `CodeByHash` (statedb.go): served entirely from the code cache; `none`
models the Go `nil` return.  The Go code hands back a fresh copy of the cached
slice; in this pure model the copy is the value itself, and reads never change
any state (the function does not return an updated `StateDBImpl`). -/
def StateDBImpl.CodeByHash (s : StateDBImpl) (codeHash : Nat) : Option Bytes :=
  alookup s.codeCache codeHash

/-- The placeholder bytecode `[]byte{0x60, 0x00}` installed by
`re_state_set_basic` for a non-zero, not-yet-cached code hash. -/
def placeholderCode : Bytes := [0x60, 0x00]

/-- Body of `re_state_set_basic` (cgo_exports.go) after handle resolution:
upsert the pending basic overlay, then make sure a non-zero incoming code hash
has at least a placeholder entry in the code cache. -/
def StateDBImpl.setBasicJ (s : StateDBImpl) (addr : Nat) (info : FFIAccountInfo) :
    StateDBImpl :=
  let s1 := { s with pendingBasic := aupsert s.pendingBasic addr info }
  if info.codeHash ≠ 0 then
    match alookup s1.codeCache info.codeHash with
    | some _ => s1
    | none => { s1 with codeCache := aupsert s1.codeCache info.codeHash placeholderCode }
  else s1

/-- Body of `re_state_set_storage` (cgo_exports.go) after handle resolution:
two-level upsert into the pending storage overlay (`slots := pendingStorage[addr]`,
allocate if nil, `slots[slot] = value`). -/
def StateDBImpl.setStorageJ (s : StateDBImpl) (addr slot val : Nat) : StateDBImpl :=
  let slots := (alookup s.pendingStorage addr).getD []
  { s with pendingStorage := aupsert s.pendingStorage addr (aupsert slots slot val) }

/-- Body of `re_state_store_code` (cgo_exports.go) after handle resolution:
a nil/empty buffer is rejected with status `-2`; otherwise a fresh copy of the
bytes is stored under the hash and status `0` is returned. -/
def StateDBImpl.storeCodeJ (s : StateDBImpl) (codeHash : Nat) (code : Bytes) :
    Int × StateDBImpl :=
  if code.length = 0 then (-2, s)
  else (0, { s with codeCache := aupsert s.codeCache codeHash code })

/-- `isEmptyInfo`: the `flushPending` empty-account test — zero balance, zero
nonce, and the all-zero ("no code") hash. -/
def isEmptyInfo (info : FFIAccountInfo) : Bool :=
  info.balance = 0 && info.nonce = 0 && info.codeHash = 0

/-- One iteration of the `for addr, info := range s.pendingBasic` loop of
`flushPending` (the part_008 variant).  The accumulator carries the StateDB
being written and the live pending storage overlay (the loop mutates the
latter via `delete(s.pendingStorage, addr)` for elided empty accounts). -/
def flushBasicStep (cache : List (Nat × Bytes))
    (acc : Ledger × List (Nat × List (Nat × Nat)))
    (p : Nat × FFIAccountInfo) : Ledger × List (Nat × List (Nat × Nat)) :=
  let db := acc.1
  let pstor := acc.2
  let addr := p.1
  let info := p.2
  if isEmptyInfo info then
    -- Empty-account elision: skip the basic write, discard the address's
    -- storage overlay, and leave deletion to StateDB's own pruning pass.
    (db, aerase pstor addr)
  else
    let prevBal := db.getBalance addr
    let prevNonce := db.getNonce addr
    if prevBal = info.balance ∧ prevNonce = info.nonce then
      -- No-op suppression: identical balance and nonce, skip the write.
      (db, pstor)
    else
      let db1 := (db.setBalance addr info.balance).setNonce addr info.nonce
      let db2 :=
        if info.codeHash ≠ 0 ∧ info.codeHash ≠ emptyCodeHash then
          if db1.getCodeSize addr = 0 then
            match alookup cache info.codeHash with
            | some codeBytes =>
              if 0 < codeBytes.length then db1.setCode addr codeBytes else db1
            | none => db1
          else db1
        else db1
      (db2, pstor)

/-- Inner loop of the storage pass of `flushPending`:
`for slot, val := range slots { s.db.SetState(addr, slot, val) }`. -/
def applySlots (addr : Nat) (slots : List (Nat × Nat)) (db : Ledger) : Ledger :=
  slots.foldl (fun db r => db.setState addr r.1 r.2) db

/-- The `for addr, slots := range s.pendingStorage` loop of `flushPending`:
apply every surviving pending storage slot with `SetState`. -/
def applyStorage (pstor : List (Nat × List (Nat × Nat))) (db : Ledger) : Ledger :=
  pstor.foldl (fun db q => applySlots q.1 q.2 db) db

/-- `flushPending` (part_008 variant): nothing to do when both overlays are
empty; otherwise walk the pending basic overlay (with empty-account elision,
no-op suppression and deferred code materialization), then apply the surviving
pending storage overlay, and finally clear both overlays (`nil` in Go, modeled
as the empty map). -/
def flushPending (s : StateDBImpl) : StateDBImpl :=
  if s.pendingBasic.length = 0 ∧ s.pendingStorage.length = 0 then s
  else
    let bp := s.pendingBasic.foldl (flushBasicStep s.codeCache)
      (s.db, s.pendingStorage)
    { s with db := applyStorage bp.2 bp.1,
             pendingBasic := [], pendingStorage := [] }

/-- The Handle Registry: the process-wide `handleMap : sync.Map` keyed by
`uintptr` (modeled as `Nat`; handle 0 is the reserved null value) plus the
atomically-incremented `handleSeq` counter. -/
structure Registry where
  handleSeq : Nat
  handleMap : List (Nat × StateDBImpl)
deriving DecidableEq, Repr

/-- `lookup` on the registry: fetch the journal for a handle, `none` when the
handle was never registered or already released. -/
def Registry.lookupH (reg : Registry) (h : Nat) : Option StateDBImpl :=
  alookup reg.handleMap h

/-- Store the (mutated) journal back under its handle.  In Go the registry
holds a pointer and the mutation is in place; in the pure model the wrappers
thread the updated journal explicitly. -/
def Registry.updateH (reg : Registry) (h : Nat) (s : StateDBImpl) : Registry :=
  { reg with handleMap := aupsert reg.handleMap h s }

/-- `NewStateDB`: a nil StateDB yields the null handle 0; otherwise allocate
`handleSeq + 1` (non-zero, monotonically increasing from 1) and register a
fresh `stateDBImpl` wrapping the given StateDB (empty code cache, nil pending
overlays). -/
def NewStateDB (reg : Registry) (db : Option Ledger) : Nat × Registry :=
  match db with
  | none => (0, reg)
  | some l =>
    let h := reg.handleSeq + 1
    (h, { handleSeq := h,
          handleMap := aupsert reg.handleMap h (StateDBImpl.mk l [] [] []) })

/-- `ReleaseStateDB`: remove the handle from the registry. -/
def ReleaseStateDB (reg : Registry) (h : Nat) : Registry :=
  { reg with handleMap := aerase reg.handleMap h }

/-- `re_state_basic` (cgo_exports.go): status `-1` when the handle does not
resolve; otherwise read through `Basic` and signal "not found" with status `1`
when the resulting info is all-zero (zero nonce, zero balance, all-zero code
hash), else fill the out-struct and return `0`.  The `out_info == nil` caller
bug (also `-1`) concerns raw C pointers and is outside the model. -/
def re_state_basic (reg : Registry) (handle addr : Nat) :
    Int × Option FFIAccountInfo × Registry :=
  match reg.lookupH handle with
  | none => (-1, none, reg)
  | some st =>
    let r := st.Basic addr
    let reg1 := reg.updateH handle r.2
    if r.1.nonce = 0 ∧ r.1.balance = 0 ∧ r.1.codeHash = 0 then
      (1, none, reg1)
    else
      (0, some r.1, reg1)

/-- `re_state_code` (cgo_exports.go): status `-1` when the handle does not
resolve; `1` (not found, nil out-buffer) when `CodeByHash` yields no bytes
(`len(code) == 0`); `0` with the bytes otherwise. -/
def re_state_code (reg : Registry) (handle codeHash : Nat) :
    Int × Option Bytes :=
  match reg.lookupH handle with
  | none => (-1, none)
  | some st =>
    let code := (st.CodeByHash codeHash).getD []
    if code.length = 0 then (1, none) else (0, some code)

/-- `re_state_set_basic` (cgo_exports.go): `-1` on an unresolved handle,
otherwise delegate to the journal body and return `0`. -/
def re_state_set_basic (reg : Registry) (handle addr : Nat)
    (info : FFIAccountInfo) : Int × Registry :=
  match reg.lookupH handle with
  | none => (-1, reg)
  | some st => (0, reg.updateH handle (st.setBasicJ addr info))

/-- `re_state_set_storage` (cgo_exports.go): `-1` on an unresolved handle,
otherwise delegate to the journal body and return `0`. -/
def re_state_set_storage (reg : Registry) (handle addr slot val : Nat) :
    Int × Registry :=
  match reg.lookupH handle with
  | none => (-1, reg)
  | some st => (0, reg.updateH handle (st.setStorageJ addr slot val))

/-- `re_state_store_code` (cgo_exports.go): `-1` on an unresolved handle,
`-2` for a nil/empty buffer, else store a copy and return `0`. -/
def re_state_store_code (reg : Registry) (handle codeHash : Nat) (code : Bytes) :
    Int × Registry :=
  match reg.lookupH handle with
  | none => (-1, reg)
  | some st =>
    let r := st.storeCodeJ codeHash code
    (r.1, reg.updateH handle r.2)

/-- `FlushPending` (statedb.go): flush the journal behind a handle; a no-op
for an unresolved handle. -/
def FlushPendingH (reg : Registry) (handle : Nat) : Registry :=
  match reg.lookupH handle with
  | none => reg
  | some st => reg.updateH handle (flushPending st)

/-- `RevmExecutorStateDB` as the snapshot layer sees it: the Rust-side
instance pointer `inst` (`none` models a Go/Rust nil — in particular a
consumed snapshot, whose `inst` is set to nil after `Commit`) and the StateDB
handle. -/
structure RevmExecutorStateDB where
  inst : Option Nat
  handle : Nat
deriving DecidableEq, Repr

/-- `Clone` (the snapshot `open`): nil receiver or nil instance yields nil;
otherwise a fresh Rust-side clone sharing the same handle.  The fresh Rust
pointer is an opaque value supplied by `revm_snapshot_clone`. -/
def Clone (freshInst : Nat) (e : Option RevmExecutorStateDB) :
    Option RevmExecutorStateDB :=
  match e with
  | none => none
  | some ex =>
    match ex.inst with
    | none => none
    | some _ => some ⟨some freshInst, ex.handle⟩

/-- `Commit` (the snapshot `merge_into`): the returned Bool records whether
the Rust-side merge (`revm_snapshot_commit` followed by
`revm_clear_caches_statedb`) was actually invoked; on that path the snapshot's
`inst` is set to nil (consumed).  All four guard cases return without invoking
anything.  The Go function has no return value and every pointer dereference
is guarded, so it can never panic: the `Except` error branch — the only way a
fatal report could be modeled — is never produced. -/
def Commit (e parent : Option RevmExecutorStateDB) :
    Except Unit (Option RevmExecutorStateDB × Option RevmExecutorStateDB × Bool) :=
  match e, parent with
  | none, p => .ok (none, p, false)
  | some ex, none => .ok (some ex, none, false)
  | some ex, some par =>
    match ex.inst, par.inst with
    | none, _ => .ok (some ex, some par, false)
    | some _, none => .ok (some ex, some par, false)
    | some _, some _ => .ok (some { ex with inst := none }, some par, true)

/-! Frame lemmas for the ledger point writes. -/

theorem getBalance_setBalance_self (l : Ledger) (a v : Nat) :
    (l.setBalance a v).getBalance a = v := by
  simp [Ledger.setBalance, Ledger.getBalance, alookup_aupsert_self]

theorem getBalance_setBalance_ne (l : Ledger) (a b v : Nat) (h : ¬ a = b) :
    (l.setBalance b v).getBalance a = l.getBalance a := by
  simp [Ledger.setBalance, Ledger.getBalance, alookup_aupsert_ne _ _ _ _ h]

theorem getNonce_setNonce_self (l : Ledger) (a v : Nat) :
    (l.setNonce a v).getNonce a = v := by
  simp [Ledger.setNonce, Ledger.getNonce, alookup_aupsert_self]

theorem getNonce_setNonce_ne (l : Ledger) (a b v : Nat) (h : ¬ a = b) :
    (l.setNonce b v).getNonce a = l.getNonce a := by
  simp [Ledger.setNonce, Ledger.getNonce, alookup_aupsert_ne _ _ _ _ h]

theorem getCode_setCode_self (l : Ledger) (a : Nat) (b : Bytes) :
    (l.setCode a b).getCode a = b := by
  simp [Ledger.setCode, Ledger.getCode, alookup_aupsert_self]

theorem getCode_setCode_ne (l : Ledger) (a c : Nat) (b : Bytes) (h : ¬ a = c) :
    (l.setCode c b).getCode a = l.getCode a := by
  simp [Ledger.setCode, Ledger.getCode, alookup_aupsert_ne _ _ _ _ h]

theorem getState_setState_self (l : Ledger) (a slot v : Nat) :
    (l.setState a slot v).getState a slot = v := by
  simp [Ledger.setState, Ledger.getState, alookup_aupsert_self]

theorem getState_setState_ne (l : Ledger) (a slot b slot2 v : Nat)
    (h : ¬ (a, slot) = (b, slot2)) :
    (l.setState b slot2 v).getState a slot = l.getState a slot := by
  simp [Ledger.setState, Ledger.getState, alookup_aupsert_ne _ _ _ _ h]

theorem getBalance_setNonce (l : Ledger) (a b v : Nat) :
    (l.setNonce b v).getBalance a = l.getBalance a := rfl

theorem getBalance_setCode (l : Ledger) (a c : Nat) (b : Bytes) :
    (l.setCode c b).getBalance a = l.getBalance a := rfl

theorem getBalance_setState (l : Ledger) (a b slot v : Nat) :
    (l.setState b slot v).getBalance a = l.getBalance a := rfl

theorem getNonce_setBalance (l : Ledger) (a b v : Nat) :
    (l.setBalance b v).getNonce a = l.getNonce a := rfl

theorem getNonce_setCode (l : Ledger) (a c : Nat) (b : Bytes) :
    (l.setCode c b).getNonce a = l.getNonce a := rfl

theorem getNonce_setState (l : Ledger) (a b slot v : Nat) :
    (l.setState b slot v).getNonce a = l.getNonce a := rfl

theorem getCode_setBalance (l : Ledger) (a b v : Nat) :
    (l.setBalance b v).getCode a = l.getCode a := rfl

theorem getCode_setNonce (l : Ledger) (a b v : Nat) :
    (l.setNonce b v).getCode a = l.getCode a := rfl

theorem getCode_setState (l : Ledger) (a b slot v : Nat) :
    (l.setState b slot v).getCode a = l.getCode a := rfl

theorem getState_setBalance (l : Ledger) (a slot b v : Nat) :
    (l.setBalance b v).getState a slot = l.getState a slot := rfl

theorem getState_setNonce (l : Ledger) (a slot b v : Nat) :
    (l.setNonce b v).getState a slot = l.getState a slot := rfl

theorem getState_setCode (l : Ledger) (a slot c : Nat) (b : Bytes) :
    (l.setCode c b).getState a slot = l.getState a slot := rfl

/-! Characterizations of `setBasicJ`'s components. -/

theorem setBasicJ_pendingBasic (s : StateDBImpl) (a : Nat) (v : FFIAccountInfo) :
    (s.setBasicJ a v).pendingBasic = aupsert s.pendingBasic a v := by
  by_cases hc : v.codeHash = 0
  · simp [StateDBImpl.setBasicJ, hc]
  · cases hm : alookup s.codeCache v.codeHash <;>
      simp [StateDBImpl.setBasicJ, hc, hm]

theorem setBasicJ_db (s : StateDBImpl) (a : Nat) (v : FFIAccountInfo) :
    (s.setBasicJ a v).db = s.db := by
  by_cases hc : v.codeHash = 0
  · simp [StateDBImpl.setBasicJ, hc]
  · cases hm : alookup s.codeCache v.codeHash <;>
      simp [StateDBImpl.setBasicJ, hc, hm]

/-- The empty in-memory StateDB used by concrete test instances. -/
def emptyLedger : Ledger := ⟨[], [], [], [], []⟩

/-- A freshly registered journal over the empty StateDB (as built by
`NewStateDB`): empty code cache, nil pending overlays. -/
def j0 : StateDBImpl := ⟨emptyLedger, [], [], []⟩

/-- Claim C1 (confirmed).  Read precedence and read-your-writes: after
`write_account(a, v)` (`re_state_set_basic`'s journal body), `read_account(a)`
(`Basic`) returns `v` exactly, before any flush; a storage read checks the
pending overlay first — when a pending entry for `(a, slot)` exists the read
returns it for any state of the Ledger Adapter (so the adapter is not
consulted), and only when no pending entry exists does the read fall through
to the adapter's `GetState`.  The account read path obeys the same precedence:
a pending basic entry always wins. -/
theorem C1_read_precedence :
    (∀ (s : StateDBImpl) (a : Nat) (v : FFIAccountInfo),
      ((s.setBasicJ a v).Basic a).1 = v) ∧
    (∀ (s : StateDBImpl) (a sl w : Nat),
      (alookup s.pendingStorage a).bind (fun inner => alookup inner sl) = some w →
      ∀ d : Ledger, ({ s with db := d } : StateDBImpl).Storage a sl = w) ∧
    (∀ (s : StateDBImpl) (a sl : Nat),
      (alookup s.pendingStorage a).bind (fun inner => alookup inner sl) = none →
      s.Storage a sl = s.db.getState a sl) ∧
    (∀ (s : StateDBImpl) (a : Nat) (info : FFIAccountInfo),
      alookup s.pendingBasic a = some info → (s.Basic a).1 = info) := by
  refine ⟨?_, ?_, ?_, ?_⟩
  · intro s a v
    have h := setBasicJ_pendingBasic s a v
    simp [StateDBImpl.Basic, h, alookup_aupsert_self]
  · intro s a sl w h d
    cases ho : alookup s.pendingStorage a with
    | none => rw [ho] at h; cases h
    | some inner =>
      rw [ho] at h
      simp only [Option.some_bind] at h
      simp [StateDBImpl.Storage, ho, h]
  · intro s a sl h
    cases ho : alookup s.pendingStorage a with
    | none => simp [StateDBImpl.Storage, ho]
    | some inner =>
      rw [ho] at h
      simp only [Option.some_bind] at h
      simp [StateDBImpl.Storage, ho, h]
  · intro s a info h
    simp [StateDBImpl.Basic, h]

/-- Journal state with one pending storage entry, used to instantiate C1. -/
def jC1 : StateDBImpl := ⟨emptyLedger, [], [], [(1, [(2, 7)])]⟩

theorem C1_read_precedence_witness :
    ((j0.setBasicJ 1 ⟨5, 2, 0⟩).Basic 1).1 = ⟨5, 2, 0⟩ ∧
    ({ jC1 with db := emptyLedger } : StateDBImpl).Storage 1 2 = 7 ∧
    j0.Storage 1 2 = j0.db.getState 1 2 :=
  ⟨C1_read_precedence.1 j0 1 ⟨5, 2, 0⟩,
   C1_read_precedence.2.1 jC1 1 2 7 (by decide) emptyLedger,
   C1_read_precedence.2.2.1 j0 1 2 (by decide)⟩

/-- `flushPending` always leaves both overlays empty (either it did nothing
because they already were, or it reset them to nil). -/
theorem flushPending_clears (s : StateDBImpl) :
    (flushPending s).pendingBasic = [] ∧ (flushPending s).pendingStorage = [] := by
  unfold flushPending
  split
  · next h => exact ⟨List.length_eq_zero.mp h.1, List.length_eq_zero.mp h.2⟩
  · exact ⟨rfl, rfl⟩

/-- A journal whose overlays are empty is left completely unchanged by
`flushPending` (the early-return guard). -/
theorem flushPending_of_empty (s : StateDBImpl)
    (h1 : s.pendingBasic = []) (h2 : s.pendingStorage = []) :
    flushPending s = s := by
  simp [flushPending, h1, h2]

/-- Claim C6 (confirmed).  Flush idempotence: for every journal state, the
second of two consecutive `flushPending` calls is a complete no-op — the whole
journal, and in particular the Ledger Adapter inside it, is identical after
the second call to its state after the first.  `flushPending` resets both
pending overlays, so the second call takes the early-return path, performing
no ledger mutation; the function is total and returns no error. -/
theorem C6_flush_idempotent :
    ∀ s : StateDBImpl, flushPending (flushPending s) = flushPending s :=
  fun s =>
    flushPending_of_empty _ (flushPending_clears s).1 (flushPending_clears s).2

/-- Claim C5, counterexample.  The claim asserts that `set_account` does not
itself store any code bytes and that for a non-zero, not-yet-cached code hash
`read_code(h)` still reports not-found until `store_code(h, bytes)` is called.
On a fresh journal, `re_state_set_basic`'s body with code hash 7 (never
stored) makes `read_code(7)` succeed immediately, returning the two
placeholder bytes `0x60 0x00` that the operation itself planted in the code
cache — refuting the claim at this concrete input. -/
theorem C5_counterexample :
    ¬ ((j0.setBasicJ 1 ⟨0, 0, 7⟩).CodeByHash 7 = none) ∧
    (j0.setBasicJ 1 ⟨0, 0, 7⟩).CodeByHash 7 = some placeholderCode := by
  constructor <;> decide

/-- Claim C5, amended (corrected).  `set_account` upserts the pending basic
overlay entry and leaves the Ledger Adapter untouched; it never stores the
caller's actual bytecode: existing cache entries are preserved verbatim, and
the only cache entry the operation can create is the fixed two-byte
placeholder under the incoming non-zero code hash (real runtime code still
requires a separate `store_code`). -/
theorem C5_set_account_no_bytecode :
    ∀ (s : StateDBImpl) (a : Nat) (v : FFIAccountInfo),
      (s.setBasicJ a v).db = s.db ∧
      alookup (s.setBasicJ a v).pendingBasic a = some v ∧
      (∀ (h : Nat) (b : Bytes), alookup s.codeCache h = some b →
        alookup (s.setBasicJ a v).codeCache h = some b) ∧
      (∀ h : Nat, alookup s.codeCache h = none →
        alookup (s.setBasicJ a v).codeCache h = none ∨
        (h = v.codeHash ∧ ¬ v.codeHash = 0 ∧
         alookup (s.setBasicJ a v).codeCache h = some placeholderCode)) := by
  intro s a v
  by_cases hc : v.codeHash = 0
  · have hs : s.setBasicJ a v = { s with pendingBasic := aupsert s.pendingBasic a v } := by
      simp [StateDBImpl.setBasicJ, hc]
    refine ⟨by rw [hs], by rw [hs]; exact alookup_aupsert_self _ _ _, ?_, ?_⟩
    · intro h b hb; rw [hs]; exact hb
    · intro h hn; left; rw [hs]; exact hn
  · cases hm : alookup s.codeCache v.codeHash with
    | some b0 =>
      have hs : s.setBasicJ a v = { s with pendingBasic := aupsert s.pendingBasic a v } := by
        simp [StateDBImpl.setBasicJ, hc, hm]
      refine ⟨by rw [hs], by rw [hs]; exact alookup_aupsert_self _ _ _, ?_, ?_⟩
      · intro h b hb; rw [hs]; exact hb
      · intro h hn; left; rw [hs]; exact hn
    | none =>
      have hs : s.setBasicJ a v =
          { s with pendingBasic := aupsert s.pendingBasic a v,
                   codeCache := aupsert s.codeCache v.codeHash placeholderCode } := by
        simp [StateDBImpl.setBasicJ, hc, hm]
      refine ⟨by rw [hs], by rw [hs]; exact alookup_aupsert_self _ _ _, ?_, ?_⟩
      · intro h b hb
        have hne : ¬ h = v.codeHash := by
          intro he; rw [he, hm] at hb; cases hb
        rw [hs]
        show alookup (aupsert s.codeCache v.codeHash placeholderCode) h = some b
        rw [alookup_aupsert_ne _ _ _ _ hne]; exact hb
      · intro h hn
        by_cases he : h = v.codeHash
        · right
          refine ⟨he, hc, ?_⟩
          rw [hs, he]
          exact alookup_aupsert_self _ _ _
        · left
          rw [hs]
          show alookup (aupsert s.codeCache v.codeHash placeholderCode) h = none
          rw [alookup_aupsert_ne _ _ _ _ he]; exact hn

/-- Journal with one real cached code entry, to instantiate C5's
cache-preservation conjunct. -/
def jC5 : StateDBImpl := ⟨emptyLedger, [(5, [1, 2, 3])], [], []⟩

theorem C5_set_account_no_bytecode_witness :
    (jC5.setBasicJ 1 ⟨0, 0, 7⟩).db = jC5.db ∧
    alookup (jC5.setBasicJ 1 ⟨0, 0, 7⟩).pendingBasic 1 = some ⟨0, 0, 7⟩ ∧
    alookup (jC5.setBasicJ 1 ⟨0, 0, 7⟩).codeCache 5 = some [1, 2, 3] :=
  ⟨(C5_set_account_no_bytecode jC5 1 ⟨0, 0, 7⟩).1,
   (C5_set_account_no_bytecode jC5 1 ⟨0, 0, 7⟩).2.1,
   (C5_set_account_no_bytecode jC5 1 ⟨0, 0, 7⟩).2.2.1 5 [1, 2, 3] rfl⟩

/-- Claim C7, counterexample.  The claim quantifies over every byte string
`b`; for the empty byte string the round-trip fails: `store_code(5, [])` is
rejected with status `-2` and stores nothing, so the subsequent `read_code(5)`
reports not-found instead of returning bytes equal to `b`. -/
theorem C7_counterexample :
    ¬ ((j0.storeCodeJ 5 []).2.CodeByHash 5 = some ([] : Bytes)) ∧
    (j0.storeCodeJ 5 []).1 = -2 ∧ (j0.storeCodeJ 5 []).2 = j0 := by
  refine ⟨?_, rfl, rfl⟩
  decide

/-- Claim C7, amended (corrected).  For every non-empty byte string,
`store_code(h, b)` succeeds (status 0) and a subsequent `read_code(h)` returns
bytes equal to `b`; `read_code` consults only the Code Cache — its result is
independent of the Ledger Adapter, and a hash never cached yields not-found;
the empty byte string is rejected with status `-2`, leaving the journal
unchanged.  The Go copy semantics (the returned slice is a fresh copy, so
caller mutation cannot affect later reads) is inherent in the pure model:
`CodeByHash` takes no state back from the caller and returns a value. -/
theorem C7_code_roundtrip :
    ∀ (s : StateDBImpl) (h : Nat) (b : Bytes), ¬ b = [] →
      (s.storeCodeJ h b).1 = 0 ∧
      (s.storeCodeJ h b).2.CodeByHash h = some b ∧
      (∀ d : Ledger, ({ s with db := d } : StateDBImpl).CodeByHash h = s.CodeByHash h) ∧
      (alookup s.codeCache h = none → s.CodeByHash h = none) ∧
      (s.storeCodeJ h []).1 = -2 ∧ (s.storeCodeJ h []).2 = s := by
  intro s h b hb
  have hlen : ¬ b.length = 0 := by simpa using hb
  refine ⟨by simp [StateDBImpl.storeCodeJ, hlen], ?_, fun d => rfl, fun hn => hn,
    by simp [StateDBImpl.storeCodeJ], by simp [StateDBImpl.storeCodeJ]⟩
  simp [StateDBImpl.storeCodeJ, hlen, StateDBImpl.CodeByHash, alookup_aupsert_self]

theorem C7_code_roundtrip_witness :
    (j0.storeCodeJ 5 [1, 2]).1 = 0 ∧
    (j0.storeCodeJ 5 [1, 2]).2.CodeByHash 5 = some [1, 2] :=
  ⟨(C7_code_roundtrip j0 5 [1, 2] (by decide)).1,
   (C7_code_roundtrip j0 5 [1, 2] (by decide)).2.1⟩

/-- A live snapshot, its parent, and the consumed state left by a first
`Commit`, used to instantiate C8. -/
def snapC8 : RevmExecutorStateDB := ⟨some 10, 3⟩

def parentC8 : RevmExecutorStateDB := ⟨some 11, 3⟩

def consumedC8 : RevmExecutorStateDB := ⟨none, 3⟩

/-- Claim C8, counterexample.  The claim asserts that invoking `merge_into`
(`Commit`) a second time on an already-merged snapshot is reported as a
distinct error condition (panic/fatal or an explicit error).  In the code the
first `Commit` consumes the snapshot (`e.inst = nil`); the second `Commit` on
it trips the nil guard and returns normally — `.ok`, no panic, no error
value (the Go function has no return value at all), no Rust-side merge (the
Bool is `false`), both states unchanged.  Nothing distinct is reported. -/
theorem C8_counterexample :
    Commit (some snapC8) (some parentC8) =
      .ok (some consumedC8, some parentC8, true) ∧
    Commit (some consumedC8) (some parentC8) =
      .ok (some consumedC8, some parentC8, false) := by
  constructor <;> rfl

/-- Claim C8, amended (corrected).  A second `Commit` on a consumed snapshot
(nil `inst`) — or any `Commit` on a consumed snapshot — is a silent guarded
no-op: it returns without panicking, without any error indication, without
invoking the Rust-side merge, and leaves both the snapshot and the parent
exactly as they were. -/
theorem C8_consumed_commit_silent_noop :
    ∀ (e : RevmExecutorStateDB) (p : Option RevmExecutorStateDB),
      e.inst = none → Commit (some e) p = .ok (some e, p, false) := by
  intro e p h
  obtain ⟨i, hd⟩ := e
  cases i with
  | some v => exact Option.noConfusion h
  | none => cases p <;> rfl

theorem C8_consumed_commit_silent_noop_witness :
    Commit (some consumedC8) (some parentC8) =
      .ok (some consumedC8, some parentC8, false) :=
  C8_consumed_commit_silent_noop consumedC8 (some parentC8) rfl

/-- An all-zero `FFIAccountInfo` is exactly one passing the `re_state_basic`
"not found" test. -/
theorem info_zero_iff (info : FFIAccountInfo) :
    (info.nonce = 0 ∧ info.balance = 0 ∧ info.codeHash = 0) ↔
      info = ⟨0, 0, 0⟩ := by
  cases info
  constructor
  · rintro ⟨h1, h2, h3⟩
    simp_all
  · intro h
    simp_all

/-- Claim C9 (confirmed).  Invalid handle is distinguished from data not
found: with a handle absent from the registry, `re_state_basic` and
`re_state_code` return `-1`; with a valid handle, an absent account (all-zero
info: zero nonce, zero balance, zero code hash) yields the distinct
non-negative not-found code `1`, as does a code hash with no cached bytes; a
successful read returns `0`.  The sentinels `-1`, `1`, `0` are pairwise
distinct. -/
theorem C9_handle_invalid_vs_not_found :
    ∀ (reg : Registry) (handle a ch : Nat),
      (reg.lookupH handle = none →
        (re_state_basic reg handle a).1 = -1 ∧
        (re_state_code reg handle ch).1 = -1) ∧
      (∀ st : StateDBImpl, reg.lookupH handle = some st →
        ((st.Basic a).1 = ⟨0, 0, 0⟩ → (re_state_basic reg handle a).1 = 1) ∧
        (¬ (st.Basic a).1 = ⟨0, 0, 0⟩ → (re_state_basic reg handle a).1 = 0) ∧
        (st.CodeByHash ch = none → (re_state_code reg handle ch).1 = 1) ∧
        (∀ b : Bytes, st.CodeByHash ch = some b → ¬ b = [] →
          (re_state_code reg handle ch).1 = 0)) ∧
      ((-1 : Int) ≠ 1 ∧ (-1 : Int) ≠ 0 ∧ (1 : Int) ≠ 0) := by
  intro reg handle a ch
  refine ⟨?_, ?_, by decide⟩
  · intro h
    exact ⟨by simp [re_state_basic, h], by simp [re_state_code, h]⟩
  · intro st h
    refine ⟨?_, ?_, ?_, ?_⟩
    · intro hb
      have hz := (info_zero_iff (st.Basic a).1).mpr hb
      simp [re_state_basic, h, (info_zero_iff (st.Basic a).1).mpr, hb]
    · intro hb
      have hz : ¬ ((st.Basic a).1.nonce = 0 ∧ (st.Basic a).1.balance = 0 ∧
          (st.Basic a).1.codeHash = 0) := fun hc => hb ((info_zero_iff _).mp hc)
      simp [re_state_basic, h, hz]
    · intro hcb
      simp [re_state_code, h, StateDBImpl.CodeByHash] at hcb ⊢
      simp [hcb]
    · intro b hcb hbne
      have hlen : ¬ b.length = 0 := by simpa using hbne
      simp [re_state_code, h, hcb, hlen]

/-- A registry holding one journal (handle 1) over the empty StateDB, as
`NewStateDB` would build it, to instantiate C9. -/
def regC9 : Registry := ⟨1, [(1, j0)]⟩

theorem C9_handle_invalid_vs_not_found_witness :
    (re_state_basic regC9 99 5).1 = -1 ∧
    (re_state_basic regC9 1 5).1 = 1 ∧
    (re_state_code regC9 1 5).1 = 1 :=
  ⟨((C9_handle_invalid_vs_not_found regC9 99 5 5).1 (by decide)).1,
   (((C9_handle_invalid_vs_not_found regC9 1 5 5).2.1 j0 (by decide)).1 (by decide)),
   (((C9_handle_invalid_vs_not_found regC9 1 5 5).2.1 j0 (by decide)).2.2.1 (by decide))⟩

/-- Claim C10 (confirmed).  Handle lifecycle: for a non-nil StateDB,
`NewStateDB` returns the non-zero handle `handleSeq + 1` (monotonically
increasing from 1), distinct from every currently registered handle (under
the counter invariant that live handles never exceed `handleSeq`); `lookup`
then succeeds and returns the freshly registered journal; after
`ReleaseStateDB`, `lookup` on that handle fails.  A nil StateDB yields the
reserved null handle 0. -/
theorem C10_handle_lifecycle :
    ∀ (reg : Registry) (l : Ledger),
      (∀ p ∈ reg.handleMap, p.1 ≤ reg.handleSeq) →
      ¬ (NewStateDB reg (some l)).1 = 0 ∧
      (NewStateDB reg (some l)).1 = reg.handleSeq + 1 ∧
      (∀ p ∈ reg.handleMap, ¬ p.1 = (NewStateDB reg (some l)).1) ∧
      (NewStateDB reg (some l)).2.lookupH (NewStateDB reg (some l)).1 =
        some (StateDBImpl.mk l [] [] []) ∧
      (ReleaseStateDB (NewStateDB reg (some l)).2
          (NewStateDB reg (some l)).1).lookupH (NewStateDB reg (some l)).1 = none ∧
      (NewStateDB reg none).1 = 0 := by
  intro reg l hinv
  refine ⟨by simp [NewStateDB], rfl, ?_, ?_, ?_, rfl⟩
  · intro p hp heq
    have := hinv p hp
    simp [NewStateDB] at heq
    omega
  · exact alookup_aupsert_self _ _ _
  · exact alookup_aerase_self _ _

theorem C10_handle_lifecycle_witness :
    ¬ (NewStateDB ⟨0, []⟩ (some emptyLedger)).1 = 0 ∧
    (NewStateDB ⟨0, []⟩ (some emptyLedger)).1 = 1 ∧
    (NewStateDB ⟨0, []⟩ (some emptyLedger)).2.lookupH 1 =
      some (StateDBImpl.mk emptyLedger [] [] []) ∧
    (ReleaseStateDB (NewStateDB ⟨0, []⟩ (some emptyLedger)).2 1).lookupH 1 = none :=
  ⟨(C10_handle_lifecycle ⟨0, []⟩ emptyLedger (by decide)).1,
   (C10_handle_lifecycle ⟨0, []⟩ emptyLedger (by decide)).2.1,
   (C10_handle_lifecycle ⟨0, []⟩ emptyLedger (by decide)).2.2.2.1,
   (C10_handle_lifecycle ⟨0, []⟩ emptyLedger (by decide)).2.2.2.2.1⟩

/-! Generic list facts used by the flush proofs. -/

theorem pair_ne_left {a b c d : Nat} (h : ¬ a = b) : ¬ (a, c) = (b, d) :=
  fun hh => h (congrArg Prod.fst hh)

theorem mem_aremove_subset {α β : Type} [DecidableEq α]
    (l : List (α × β)) (k : α) :
    ∀ q ∈ aremove l k, q ∈ l := by
  induction l with
  | nil => intro q hq; cases hq
  | cons p rest ih =>
    intro q hq
    by_cases hp : p.1 = k
    · exact List.mem_cons_of_mem _ (ih q (by simpa [aremove, hp] using hq))
    · rcases (by simpa [aremove, hp] using hq : q = p ∨ q ∈ aremove rest k) with h1 | h1
      · exact h1 ▸ List.mem_cons_self _ _
      · exact List.mem_cons_of_mem _ (ih q h1)

theorem alookup_mem {α β : Type} [DecidableEq α]
    (l : List (α × β)) (a : α) (v : β) (h : alookup l a = some v) : (a, v) ∈ l := by
  induction l with
  | nil => cases h
  | cons p rest ih =>
    by_cases hp : p.1 = a
    · have hv : p.2 = v := by
        have := h
        simp [alookup, hp] at this
        exact this
      have hpv : (a, v) = p := by
        rw [← hp, ← hv]
      exact hpv ▸ List.mem_cons_self _ _
    · exact List.mem_cons_of_mem _ (ih (by simpa [alookup, hp] using h))

theorem exists_first_key_split (l : List (Nat × FFIAccountInfo))
    (a : Nat) (info : FFIAccountInfo)
    (hmem : (a, info) ∈ l) (huniq : ∀ p ∈ l, p.1 = a → p.2 = info) :
    ∃ l1 l2, l = l1 ++ (a, info) :: l2 ∧ ∀ p ∈ l1, ¬ p.1 = a := by
  induction l with
  | nil => cases hmem
  | cons p rest ih =>
    by_cases hpa : p.1 = a
    · have hp2 : p.2 = info := huniq p (List.mem_cons_self _ _) hpa
      have hpv : p = (a, info) := by
        rw [← hpa, ← hp2]
      refine ⟨[], rest, by rw [hpv]; rfl, ?_⟩
      intro q hq; cases hq
    · rcases List.mem_cons.mp hmem with heq | hm
      · exact absurd (congrArg Prod.fst heq.symm) hpa
      · obtain ⟨l1, l2, heq, h1⟩ :=
          ih hm (fun q hq hqa => huniq q (List.mem_cons_of_mem _ hq) hqa)
        refine ⟨p :: l1, l2, by rw [heq]; rfl, ?_⟩
        intro q hq
        rcases List.mem_cons.mp hq with h2 | h2
        · exact h2 ▸ hpa
        · exact h1 q h2

/-! Pointwise behavior of one `flushPending` basic-loop iteration. -/

theorem flushBasicStep_of_empty (cache : List (Nat × Bytes))
    (acc : Ledger × List (Nat × List (Nat × Nat))) (p : Nat × FFIAccountInfo)
    (h : isEmptyInfo p.2 = true) :
    flushBasicStep cache acc p = (acc.1, aerase acc.2 p.1) := by
  simp [flushBasicStep, h]

theorem flushBasicStep_pstor_of_not_empty (cache : List (Nat × Bytes))
    (acc : Ledger × List (Nat × List (Nat × Nat))) (p : Nat × FFIAccountInfo)
    (h : isEmptyInfo p.2 = false) :
    (flushBasicStep cache acc p).2 = acc.2 := by
  simp only [flushBasicStep, h, Bool.false_eq_true, if_false]
  split <;> rfl

theorem flushBasicStep_nop (cache : List (Nat × Bytes))
    (acc : Ledger × List (Nat × List (Nat × Nat))) (p : Nat × FFIAccountInfo)
    (h : isEmptyInfo p.2 = false)
    (h1 : acc.1.getBalance p.1 = p.2.balance)
    (h2 : acc.1.getNonce p.1 = p.2.nonce) :
    flushBasicStep cache acc p = acc := by
  simp [flushBasicStep, h, h1, h2]

theorem flushBasicStep_frame (cache : List (Nat × Bytes))
    (acc : Ledger × List (Nat × List (Nat × Nat))) (p : Nat × FFIAccountInfo)
    (a : Nat) (h : ¬ p.1 = a) :
    (flushBasicStep cache acc p).1.getBalance a = acc.1.getBalance a ∧
    (flushBasicStep cache acc p).1.getNonce a = acc.1.getNonce a ∧
    (flushBasicStep cache acc p).1.getCode a = acc.1.getCode a ∧
    (∀ sl, (flushBasicStep cache acc p).1.getState a sl = acc.1.getState a sl) ∧
    alookup (flushBasicStep cache acc p).2 a = alookup acc.2 a := by
  have hna : ¬ a = p.1 := fun hh => h hh.symm
  unfold flushBasicStep
  dsimp only
  split
  · exact ⟨rfl, rfl, rfl, fun sl => rfl, alookup_aerase_ne _ _ _ hna⟩
  · split
    · exact ⟨rfl, rfl, rfl, fun sl => rfl, rfl⟩
    · refine ⟨?_, ?_, ?_, fun sl => ?_, rfl⟩ <;>
        (repeat' split) <;>
        simp [getBalance_setCode, getBalance_setNonce,
          getBalance_setBalance_ne _ _ _ _ hna, getNonce_setCode,
          getNonce_setNonce_ne _ _ _ _ hna, getNonce_setBalance,
          getCode_setCode_ne _ _ _ _ hna, getCode_setNonce,
          getCode_setBalance, getState_setCode, getState_setNonce,
          getState_setBalance]

/-- Folding basic-loop iterations whose addresses all differ from `a`
preserves every `a`-projection of the StateDB and the pending storage
overlay's entry for `a`. -/
theorem foldBasic_frame (cache : List (Nat × Bytes))
    (l : List (Nat × FFIAccountInfo)) (a : Nat)
    (hl : ∀ p ∈ l, ¬ p.1 = a) :
    ∀ acc : Ledger × List (Nat × List (Nat × Nat)),
      (l.foldl (flushBasicStep cache) acc).1.getBalance a = acc.1.getBalance a ∧
      (l.foldl (flushBasicStep cache) acc).1.getNonce a = acc.1.getNonce a ∧
      (l.foldl (flushBasicStep cache) acc).1.getCode a = acc.1.getCode a ∧
      (∀ sl, (l.foldl (flushBasicStep cache) acc).1.getState a sl =
        acc.1.getState a sl) ∧
      alookup (l.foldl (flushBasicStep cache) acc).2 a = alookup acc.2 a := by
  induction l with
  | nil => intro acc; exact ⟨rfl, rfl, rfl, fun sl => rfl, rfl⟩
  | cons p rest ih =>
    intro acc
    have hp := hl p (List.mem_cons_self _ _)
    have hstep := flushBasicStep_frame cache acc p a hp
    have hrest := ih (fun q hq => hl q (List.mem_cons_of_mem _ hq))
      (flushBasicStep cache acc p)
    rw [List.foldl_cons]
    exact ⟨hrest.1.trans hstep.1, hrest.2.1.trans hstep.2.1,
      hrest.2.2.1.trans hstep.2.2.1,
      fun sl => (hrest.2.2.2.1 sl).trans (hstep.2.2.2.1 sl),
      hrest.2.2.2.2.trans hstep.2.2.2.2⟩

/-! Frame lemmas for the storage pass. -/

theorem applySlots_getBalance (addr : Nat) (slots : List (Nat × Nat))
    (db : Ledger) (a : Nat) :
    (applySlots addr slots db).getBalance a = db.getBalance a := by
  induction slots generalizing db with
  | nil => rfl
  | cons r rest ih =>
    rw [applySlots, List.foldl_cons, ← applySlots, ih, getBalance_setState]

theorem applySlots_getNonce (addr : Nat) (slots : List (Nat × Nat))
    (db : Ledger) (a : Nat) :
    (applySlots addr slots db).getNonce a = db.getNonce a := by
  induction slots generalizing db with
  | nil => rfl
  | cons r rest ih =>
    rw [applySlots, List.foldl_cons, ← applySlots, ih, getNonce_setState]

theorem applySlots_getCode (addr : Nat) (slots : List (Nat × Nat))
    (db : Ledger) (a : Nat) :
    (applySlots addr slots db).getCode a = db.getCode a := by
  induction slots generalizing db with
  | nil => rfl
  | cons r rest ih =>
    rw [applySlots, List.foldl_cons, ← applySlots, ih, getCode_setState]

theorem applySlots_getState_addr_ne (addr : Nat) (slots : List (Nat × Nat))
    (db : Ledger) (a sl : Nat) (h : ¬ a = addr) :
    (applySlots addr slots db).getState a sl = db.getState a sl := by
  induction slots generalizing db with
  | nil => rfl
  | cons r rest ih =>
    rw [applySlots, List.foldl_cons, ← applySlots, ih,
      getState_setState_ne _ _ _ _ _ _ (pair_ne_left h)]

theorem applySlots_getState_slot_ne (addr : Nat) (slots : List (Nat × Nat))
    (db : Ledger) (a sl : Nat) (h : ∀ r ∈ slots, ¬ r.1 = sl) :
    (applySlots addr slots db).getState a sl = db.getState a sl := by
  induction slots generalizing db with
  | nil => rfl
  | cons r rest ih =>
    have hr : ¬ sl = r.1 := fun hh => (h r (List.mem_cons_self _ _)) hh.symm
    have hrest := fun db => ih db (fun q hq => h q (List.mem_cons_of_mem _ hq))
    rw [applySlots, List.foldl_cons, ← applySlots, hrest, getState_setState_ne]
    intro hh
    exact hr (congrArg Prod.snd hh)

theorem applyStorage_cons (q : Nat × List (Nat × Nat))
    (rest : List (Nat × List (Nat × Nat))) (db : Ledger) :
    applyStorage (q :: rest) db = applyStorage rest (applySlots q.1 q.2 db) := rfl

theorem applyStorage_getBalance (pstor : List (Nat × List (Nat × Nat)))
    (db : Ledger) (a : Nat) :
    (applyStorage pstor db).getBalance a = db.getBalance a := by
  induction pstor generalizing db with
  | nil => rfl
  | cons q rest ih => rw [applyStorage_cons, ih, applySlots_getBalance]

theorem applyStorage_getNonce (pstor : List (Nat × List (Nat × Nat)))
    (db : Ledger) (a : Nat) :
    (applyStorage pstor db).getNonce a = db.getNonce a := by
  induction pstor generalizing db with
  | nil => rfl
  | cons q rest ih => rw [applyStorage_cons, ih, applySlots_getNonce]

theorem applyStorage_getCode (pstor : List (Nat × List (Nat × Nat)))
    (db : Ledger) (a : Nat) :
    (applyStorage pstor db).getCode a = db.getCode a := by
  induction pstor generalizing db with
  | nil => rfl
  | cons q rest ih => rw [applyStorage_cons, ih, applySlots_getCode]

theorem applyStorage_getState_ne (pstor : List (Nat × List (Nat × Nat)))
    (db : Ledger) (a sl : Nat) (h : ∀ q ∈ pstor, ¬ q.1 = a) :
    (applyStorage pstor db).getState a sl = db.getState a sl := by
  induction pstor generalizing db with
  | nil => rfl
  | cons q rest ih =>
    have hq : ¬ a = q.1 := fun hh => (h q (List.mem_cons_self _ _)) hh.symm
    rw [applyStorage_cons, ih _ (fun r hr => h r (List.mem_cons_of_mem _ hr)),
      applySlots_getState_addr_ne _ _ _ _ _ hq]

theorem setStorageJ_pendingBasic (s : StateDBImpl) (a sl w : Nat) :
    (s.setStorageJ a sl w).pendingBasic = s.pendingBasic := rfl

theorem setStorageJ_codeCache (s : StateDBImpl) (a sl w : Nat) :
    (s.setStorageJ a sl w).codeCache = s.codeCache := rfl

theorem setStorageJ_db (s : StateDBImpl) (a sl w : Nat) :
    (s.setStorageJ a sl w).db = s.db := rfl

/-- If no basic-overlay entry for address `a` is empty (so `a` is never
elided), the basic loop of `flushPending` keeps the pending-storage entry for
`a` at the head of the overlay and never introduces another entry for `a`. -/
theorem foldBasic_pstor_head (cache : List (Nat × Bytes))
    (l : List (Nat × FFIAccountInfo)) (a : Nat) (inner : List (Nat × Nat))
    (hb : ∀ p ∈ l, p.1 = a → isEmptyInfo p.2 = false) :
    ∀ (db : Ledger) (rest : List (Nat × List (Nat × Nat))),
      (∀ q ∈ rest, ¬ q.1 = a) →
      ∃ rest2, (l.foldl (flushBasicStep cache) (db, (a, inner) :: rest)).2 =
          (a, inner) :: rest2 ∧ ∀ q ∈ rest2, ¬ q.1 = a := by
  induction l with
  | nil => intro db rest hrest; exact ⟨rest, rfl, hrest⟩
  | cons p restL ih =>
    intro db rest hrest
    rw [List.foldl_cons]
    by_cases hpa : p.1 = a
    · have hemp := hb p (List.mem_cons_self _ _) hpa
      have hstep2 :=
        flushBasicStep_pstor_of_not_empty cache (db, (a, inner) :: rest) p hemp
      dsimp only at hstep2
      have hacc : flushBasicStep cache (db, (a, inner) :: rest) p =
          ((flushBasicStep cache (db, (a, inner) :: rest) p).1,
            (a, inner) :: rest) := by
        rw [Prod.ext_iff]
        exact ⟨rfl, hstep2⟩
      rw [hacc]
      exact ih (fun q hq hqa => hb q (List.mem_cons_of_mem _ hq) hqa) _ rest hrest
    · cases hemp : isEmptyInfo p.2 with
      | false =>
        have hstep2 :=
          flushBasicStep_pstor_of_not_empty cache (db, (a, inner) :: rest) p hemp
        dsimp only at hstep2
        have hacc : flushBasicStep cache (db, (a, inner) :: rest) p =
            ((flushBasicStep cache (db, (a, inner) :: rest) p).1,
              (a, inner) :: rest) := by
          rw [Prod.ext_iff]
          exact ⟨rfl, hstep2⟩
        rw [hacc]
        exact ih (fun q hq hqa => hb q (List.mem_cons_of_mem _ hq) hqa) _ rest hrest
      | true =>
        have hstep := flushBasicStep_of_empty cache (db, (a, inner) :: rest) p hemp
        have hap : ¬ a = p.1 := fun hh => hpa hh.symm
        have hform : aerase ((a, inner) :: rest) p.1 =
            (a, inner) :: aerase rest p.1 := by
          simp [aerase, aremove, hap]
        rw [hstep, hform]
        exact ih (fun q hq hqa => hb q (List.mem_cons_of_mem _ hq) hqa) db
          (aerase rest p.1)
          (fun q hq => hrest q (mem_aremove_subset rest p.1 q hq))

/-- Journal whose pending basic overlay marks address 1 as empty, making the
flush elide it (and discard its storage overlay). -/
def jC2 : StateDBImpl := ⟨emptyLedger, [], [(1, ⟨0, 0, 0⟩)], []⟩

/-- Claim C2, counterexample.  The claim asserts that after `flush()` the
Ledger Adapter's value for `(a, s)` equals the last pending value `w`.  On a
journal whose pending basic entry for address 1 is the empty account info
(zero balance, zero nonce, zero code hash), a `write_storage(1, 2, 7)` is
visible to the journal but `flushPending` elides address 1, *discarding* its
storage overlay: the adapter still reads 0, not 7, after the flush. -/
theorem C2_counterexample :
    (jC2.setStorageJ 1 2 7).db.getState 1 2 = 0 ∧
    ¬ ((flushPending (jC2.setStorageJ 1 2 7)).db.getState 1 2 = 7) := by
  constructor <;> decide

/-- Claim C2, amended (corrected).  Isolation before flush holds
unconditionally: a `write_storage` through the journal leaves the Ledger
Adapter bit-for-bit unchanged.  After `flush()`, the adapter's value for
`(a, s)` equals the last pending value `w` provided no pending basic entry
for `a` is the empty account info (otherwise empty-account elision discards
`a`'s storage overlay — the situation of the counterexample). -/
theorem C2_storage_isolation_and_flush :
    (∀ (s : StateDBImpl) (a sl w : Nat), (s.setStorageJ a sl w).db = s.db) ∧
    (∀ (s : StateDBImpl) (a sl w : Nat),
      (∀ p ∈ s.pendingBasic, p.1 = a → isEmptyInfo p.2 = false) →
      (flushPending (s.setStorageJ a sl w)).db.getState a sl = w) := by
  constructor
  · intro s a sl w; rfl
  · intro s a sl w hb
    have hps : (s.setStorageJ a sl w).pendingStorage =
        (a, aupsert ((alookup s.pendingStorage a).getD []) sl w) ::
          aremove s.pendingStorage a := rfl
    have hguard : ¬ ((s.setStorageJ a sl w).pendingBasic.length = 0 ∧
        (s.setStorageJ a sl w).pendingStorage.length = 0) := by
      intro hc
      have := hc.2
      rw [hps] at this
      simp at this
    unfold flushPending
    rw [if_neg hguard]
    dsimp only
    rw [setStorageJ_pendingBasic, setStorageJ_codeCache, setStorageJ_db, hps]
    obtain ⟨rest2, hbp2, hrest2⟩ := foldBasic_pstor_head s.codeCache
      s.pendingBasic a (aupsert ((alookup s.pendingStorage a).getD []) sl w)
      hb s.db (aremove s.pendingStorage a)
      (mem_aremove_key_ne s.pendingStorage a)
    rw [hbp2, applyStorage_cons,
      applyStorage_getState_ne _ _ _ _ hrest2]
    rw [aupsert, applySlots, List.foldl_cons, ← applySlots,
      applySlots_getState_slot_ne _ _ _ _ _
        (mem_aremove_key_ne ((alookup s.pendingStorage a).getD []) sl)]
    exact getState_setState_self _ _ _ _

theorem C2_storage_isolation_and_flush_witness :
    (j0.setStorageJ 1 2 7).db = j0.db ∧
    (flushPending (j0.setStorageJ 1 2 7)).db.getState 1 2 = 7 :=
  ⟨C2_storage_isolation_and_flush.1 j0 1 2 7,
   C2_storage_isolation_and_flush.2 j0 1 2 7 (by decide)⟩

/-- When every basic-overlay entry for `a` is the empty account info, the
basic loop of `flushPending` never writes `a`'s balance, nonce, code or
storage, and — as soon as at least one entry for `a` exists — removes `a`'s
pending storage entry entirely. -/
theorem foldBasic_elided (cache : List (Nat × Bytes))
    (l : List (Nat × FFIAccountInfo)) (a : Nat)
    (hall : ∀ p ∈ l, p.1 = a → isEmptyInfo p.2 = true) :
    ∀ acc : Ledger × List (Nat × List (Nat × Nat)),
      (l.foldl (flushBasicStep cache) acc).1.getBalance a = acc.1.getBalance a ∧
      (l.foldl (flushBasicStep cache) acc).1.getNonce a = acc.1.getNonce a ∧
      (l.foldl (flushBasicStep cache) acc).1.getCode a = acc.1.getCode a ∧
      (∀ sl, (l.foldl (flushBasicStep cache) acc).1.getState a sl =
        acc.1.getState a sl) ∧
      (alookup (l.foldl (flushBasicStep cache) acc).2 a = alookup acc.2 a ∨
        alookup (l.foldl (flushBasicStep cache) acc).2 a = none) ∧
      ((∃ p ∈ l, p.1 = a) →
        alookup (l.foldl (flushBasicStep cache) acc).2 a = none) := by
  induction l with
  | nil =>
    intro acc
    refine ⟨rfl, rfl, rfl, fun sl => rfl, Or.inl rfl, ?_⟩
    rintro ⟨p, hp, _⟩
    cases hp
  | cons p rest ih =>
    intro acc
    rw [List.foldl_cons]
    have ihx := ih (fun q hq hqa => hall q (List.mem_cons_of_mem _ hq) hqa)
      (flushBasicStep cache acc p)
    by_cases hpa : p.1 = a
    · have hemp := hall p (List.mem_cons_self _ _) hpa
      have hstep := flushBasicStep_of_empty cache acc p hemp
      have hdb : (flushBasicStep cache acc p).1 = acc.1 := by rw [hstep]
      have hnone : alookup (flushBasicStep cache acc p).2 a = none := by
        rw [hstep]
        dsimp only
        rw [← hpa]
        exact alookup_aerase_self _ _
      have hfin : alookup ((rest.foldl (flushBasicStep cache)
          (flushBasicStep cache acc p))).2 a = none := by
        rcases ihx.2.2.2.2.1 with hcase | hcase
        · rw [hcase, hnone]
        · exact hcase
      refine ⟨by rw [ihx.1, hdb], by rw [ihx.2.1, hdb], by rw [ihx.2.2.1, hdb],
        fun sl => by rw [ihx.2.2.2.1 sl, hdb], Or.inr hfin, fun _ => hfin⟩
    · have hstep := flushBasicStep_frame cache acc p a hpa
      refine ⟨ihx.1.trans hstep.1, ihx.2.1.trans hstep.2.1,
        ihx.2.2.1.trans hstep.2.2.1,
        fun sl => (ihx.2.2.2.1 sl).trans (hstep.2.2.2.1 sl), ?_, ?_⟩
      · rcases ihx.2.2.2.2.1 with hcase | hcase
        · exact Or.inl (hcase.trans hstep.2.2.2.2)
        · exact Or.inr hcase
      · rintro ⟨q, hq, hqa⟩
        rcases List.mem_cons.mp hq with h2 | h2
        · exact absurd (h2 ▸ hqa) hpa
        · exact ihx.2.2.2.2.2 ⟨q, h2, hqa⟩

/-- Claim C3 (confirmed).  Empty-account elision: when the pending basic
overlay holds an entry for address `a` and every such entry is the empty
account info (zero balance, zero nonce, and the all-zero "no code" hash —
the designated no-code marker of the bridge), `flushPending` performs no
balance, nonce, code or storage write for `a`: every `a`-projection of the
Ledger Adapter is unchanged, with `a`'s pending storage overlay discarded
rather than applied. -/
theorem C3_empty_account_elision :
    ∀ (s : StateDBImpl) (a : Nat) (info : FFIAccountInfo),
      alookup s.pendingBasic a = some info →
      (∀ p ∈ s.pendingBasic, p.1 = a → isEmptyInfo p.2 = true) →
      (flushPending s).db.getBalance a = s.db.getBalance a ∧
      (flushPending s).db.getNonce a = s.db.getNonce a ∧
      (flushPending s).db.getCode a = s.db.getCode a ∧
      (∀ sl, (flushPending s).db.getState a sl = s.db.getState a sl) := by
  intro s a info hsome hall
  by_cases hg : s.pendingBasic.length = 0 ∧ s.pendingStorage.length = 0
  · rw [List.length_eq_zero.mp hg.1] at hsome
    cases hsome
  · unfold flushPending
    rw [if_neg hg]
    dsimp only
    have hex : ∃ p ∈ s.pendingBasic, p.1 = a :=
      ⟨(a, info), alookup_mem _ _ _ hsome, rfl⟩
    have hfold := foldBasic_elided s.codeCache s.pendingBasic a hall
      (s.db, s.pendingStorage)
    dsimp only at hfold
    have hnone := hfold.2.2.2.2.2 hex
    have hkeys := (alookup_eq_none_iff _ _).mp hnone
    refine ⟨?_, ?_, ?_, fun sl => ?_⟩
    · rw [applyStorage_getBalance, hfold.1]
    · rw [applyStorage_getNonce, hfold.2.1]
    · rw [applyStorage_getCode, hfold.2.2.1]
    · rw [applyStorage_getState_ne _ _ _ _ hkeys, hfold.2.2.2.1 sl]

/-- Journal for C3's witness: ledger slot (1,2) holds 5; address 1 is pending
as the empty account but also carries a pending storage write of 7, which the
flush must discard. -/
def jC3 : StateDBImpl :=
  ⟨⟨[], [], [], [], [((1, 2), 5)]⟩, [], [(1, ⟨0, 0, 0⟩)], [(1, [(2, 7)])]⟩

theorem C3_empty_account_elision_witness :
    (flushPending jC3).db.getState 1 2 = 5 ∧
    (flushPending jC3).db.getBalance 1 = 0 :=
  ⟨((C3_empty_account_elision jC3 1 ⟨0, 0, 0⟩ (by decide) (by decide)).2.2.2 2).trans
      (by decide),
   ((C3_empty_account_elision jC3 1 ⟨0, 0, 0⟩ (by decide) (by decide)).1).trans
      (by decide)⟩

/-- The basic-loop iteration for an entry whose balance or nonce differs from
the ledger's current values (so neither elision nor no-op suppression fires),
whose code hash is a real one (non-zero, not the empty-code hash), whose
address has no code in the ledger, and whose hash has non-empty cached bytes:
it writes balance, nonce, and the cached code. -/
theorem flushBasicStep_apply_code (cache : List (Nat × Bytes)) (db : Ledger)
    (pstor : List (Nat × List (Nat × Nat))) (a : Nat) (info : FFIAccountInfo)
    (bytes : Bytes)
    (hnop : ¬ (db.getBalance a = info.balance ∧ db.getNonce a = info.nonce))
    (hch : ¬ info.codeHash = 0) (hche : ¬ info.codeHash = emptyCodeHash)
    (hcode : db.getCode a = [])
    (hcache : alookup cache info.codeHash = some bytes)
    (hlen : 0 < bytes.length) :
    (flushBasicStep cache (db, pstor) (a, info)).1.getCode a = bytes ∧
    (flushBasicStep cache (db, pstor) (a, info)).1.getBalance a = info.balance ∧
    (flushBasicStep cache (db, pstor) (a, info)).1.getNonce a = info.nonce := by
  have hemp : isEmptyInfo info = false := by
    simp [isEmptyInfo, hch]
  have hsize : ((db.setBalance a info.balance).setNonce a info.nonce).getCodeSize a
      = 0 := by
    simp [Ledger.getCodeSize, getCode_setNonce, getCode_setBalance, hcode]
  unfold flushBasicStep
  dsimp only
  rw [hemp]
  simp only [Bool.false_eq_true, if_false]
  rw [if_neg hnop, if_pos ⟨hch, hche⟩, if_pos hsize, hcache]
  dsimp only
  rw [if_pos hlen]
  exact ⟨getCode_setCode_self _ _ _,
    by rw [getBalance_setCode, getBalance_setNonce, getBalance_setBalance_self],
    by rw [getNonce_setCode, getNonce_setNonce_self]⟩

/-- After the basic loop has written an address's balance, nonce and code,
the remaining iterations keep them: entries for other addresses are frames,
and any later duplicate entry for the same address (it must carry the same
info) now trips the no-op suppression. -/
theorem foldBasic_keeps_applied (cache : List (Nat × Bytes))
    (l2 : List (Nat × FFIAccountInfo)) (a : Nat) (info : FFIAccountInfo)
    (bytes : Bytes) (hch : ¬ info.codeHash = 0)
    (huniq : ∀ p ∈ l2, p.1 = a → p.2 = info) :
    ∀ acc : Ledger × List (Nat × List (Nat × Nat)),
      acc.1.getCode a = bytes → acc.1.getBalance a = info.balance →
      acc.1.getNonce a = info.nonce →
      ((l2.foldl (flushBasicStep cache) acc).1.getCode a = bytes ∧
       (l2.foldl (flushBasicStep cache) acc).1.getBalance a = info.balance ∧
       (l2.foldl (flushBasicStep cache) acc).1.getNonce a = info.nonce) := by
  induction l2 with
  | nil => intro acc h1 h2 h3; exact ⟨h1, h2, h3⟩
  | cons p rest ih =>
    intro acc h1 h2 h3
    rw [List.foldl_cons]
    by_cases hpa : p.1 = a
    · have hp2 : p.2 = info := huniq p (List.mem_cons_self _ _) hpa
      have hemp : isEmptyInfo p.2 = false := by
        rw [hp2]; simp [isEmptyInfo, hch]
      have hbal : acc.1.getBalance p.1 = p.2.balance := by rw [hpa, hp2, h2]
      have hnon : acc.1.getNonce p.1 = p.2.nonce := by rw [hpa, hp2, h3]
      rw [flushBasicStep_nop cache acc p hemp hbal hnon]
      exact ih (fun q hq hqa => huniq q (List.mem_cons_of_mem _ hq) hqa)
        acc h1 h2 h3
    · have hstep := flushBasicStep_frame cache acc p a hpa
      exact ih (fun q hq hqa => huniq q (List.mem_cons_of_mem _ hq) hqa)
        (flushBasicStep cache acc p) (hstep.2.2.1.trans h1)
        (hstep.1.trans h2) (hstep.2.1.trans h3)

/-- Journal for C4's counterexample: address 1 has pending info
(balance 5, nonce 1, code hash 7); the ledger already holds balance 5 and
nonce 1 for it and no code; the code cache holds bytes for hash 7. -/
def jC4 : StateDBImpl :=
  ⟨⟨[(1, 5)], [(1, 1)], [], [], []⟩, [(7, [1, 2, 3])], [(1, ⟨5, 1, 7⟩)], []⟩

/-- Claim C4, counterexample.  The claim asserts deferred code
materialization holds "in particular … even when the pending balance and
nonce equal the Ledger Adapter's current values".  In `jC4` every premise of
the claim holds — pending code hash 7 is neither zero nor the empty-code
hash, the adapter reports zero code length for address 1, and the cache holds
bytes for hash 7 — yet because pending balance and nonce are byte-identical
to the adapter's current values, the no-op suppression `continue` fires
*before* the code-materialization step, and the flush writes no code at
all. -/
theorem C4_counterexample :
    ¬ ((7 : Nat) = 0) ∧ ¬ ((7 : Nat) = emptyCodeHash) ∧
    jC4.db.getCodeSize 1 = 0 ∧
    alookup jC4.codeCache 7 = some [1, 2, 3] ∧
    jC4.db.getBalance 1 = 5 ∧ jC4.db.getNonce 1 = 1 ∧
    ¬ ((flushPending jC4).db.getCode 1 = [1, 2, 3]) ∧
    (flushPending jC4).db.getCode 1 = [] := by
  exact ⟨by decide, by decide, by decide, by decide, by decide, by decide,
    by decide, by decide⟩

/-- Claim C4, amended (corrected).  Deferred code materialization holds
provided the pending balance or nonce differs from the Ledger Adapter's
current value for the address (so the no-op suppression does not skip the
entry): if additionally the pending code hash is non-zero and not the
empty-code hash, the adapter holds no code for the address, and the Code
Cache holds non-empty bytes for that hash, then `flushPending` writes those
cached bytes as the address's code in the same pass.  (The duplicate-entry
hypothesis is vacuous for real Go maps, whose keys are unique.) -/
theorem C4_deferred_code_needs_changed_basics :
    ∀ (s : StateDBImpl) (a : Nat) (info : FFIAccountInfo) (bytes : Bytes),
      (a, info) ∈ s.pendingBasic →
      (∀ p ∈ s.pendingBasic, p.1 = a → p.2 = info) →
      ¬ (s.db.getBalance a = info.balance ∧ s.db.getNonce a = info.nonce) →
      ¬ info.codeHash = 0 →
      ¬ info.codeHash = emptyCodeHash →
      s.db.getCode a = [] →
      alookup s.codeCache info.codeHash = some bytes →
      0 < bytes.length →
      (flushPending s).db.getCode a = bytes := by
  intro s a info bytes hmem huniq hnop hch hche hcode hcache hlen
  have hguard : ¬ (s.pendingBasic.length = 0 ∧ s.pendingStorage.length = 0) := by
    intro hc
    rw [List.length_eq_zero.mp hc.1] at hmem
    cases hmem
  unfold flushPending
  rw [if_neg hguard]
  dsimp only
  rw [applyStorage_getCode]
  obtain ⟨l1, l2, hsplit, hl1⟩ := exists_first_key_split s.pendingBasic a info hmem huniq
  rw [hsplit, List.foldl_append, List.foldl_cons]
  have hfr := foldBasic_frame s.codeCache l1 a hl1 (s.db, s.pendingStorage)
  dsimp only at hfr
  have happ := flushBasicStep_apply_code s.codeCache
    (l1.foldl (flushBasicStep s.codeCache) (s.db, s.pendingStorage)).1
    (l1.foldl (flushBasicStep s.codeCache) (s.db, s.pendingStorage)).2
    a info bytes
    (by rw [hfr.1, hfr.2.1]; exact hnop) hch hche
    (by rw [hfr.2.2.1]; exact hcode) hcache hlen
  exact (foldBasic_keeps_applied s.codeCache l2 a info bytes hch
    (fun q hq hqa => huniq q
      (by rw [hsplit]
          exact List.mem_append_right _ (List.mem_cons_of_mem _ hq)) hqa)
    (flushBasicStep s.codeCache
      (l1.foldl (flushBasicStep s.codeCache) (s.db, s.pendingStorage)) (a, info))
    happ.1 happ.2.1 happ.2.2).1

/-- Journal for C4's witness: like `jC4` but over the empty ledger, so the
pending balance 5 differs from the ledger's 0 and the code write happens. -/
def jC4w : StateDBImpl := ⟨emptyLedger, [(7, [1, 2, 3])], [(1, ⟨5, 1, 7⟩)], []⟩

theorem C4_deferred_code_needs_changed_basics_witness :
    (flushPending jC4w).db.getCode 1 = [1, 2, 3] :=
  C4_deferred_code_needs_changed_basics jC4w 1 ⟨5, 1, 7⟩ [1, 2, 3]
    (by decide) (by decide) (by decide) (by decide) (by decide) (by decide)
    (by decide) (by decide)

end RevmBridge
